import Mathlib

/-!
Verification of the core algorithms of the Gen7 clinical-question trainer:
the spaced-repetition (SRS) scheduler in `src/App.tsx`, the topic
canonicalization and analytics aggregation in
`src/components/AnalyticsView.tsx`, and the lifetime-stats / import logic of
the database service.

Modelling conventions: JavaScript numbers are embedded as exact rationals
(`ℚ`), `Math.ceil` as `Int.ceil`, `Math.round` as Mathlib's `round`
(both are floor (x + 1/2), agreeing on halves), `toFixed(1)` as rounding
`x * 10` and dividing by 10. JavaScript objects used as string-keyed maps
are embedded as association lists or as functions `String → Option _`;
object key iteration order (insertion order) becomes list order, with
newest-first history lists as the store keeps them. Fallible lookups
return `Option`.
-/

/-! ## SRS state machine (src/App.tsx, `updateSRS`) -/

/-- A rating given to a card during review (`SRSRating` in types). -/
inductive SRSRating
  | again
  | hard
  | good
  | easy
deriving DecidableEq, Repr

/-- Per-card scheduling state (`SRSState` in types): the fields read and
written by `updateSRS` in src/App.tsx. -/
structure SRSState where
  cardId : String
  nextReview : ℚ
  interval : ℚ
  ease : ℚ
  repetitions : ℕ
deriving DecidableEq, Repr

/-- The per-card transition applied by `updateSRS` (src/App.tsx lines
226-245) to the current state and a rating, at wall-clock time `now`
(milliseconds): the body of the `setSrsStates` updater, translated
statement by statement. -/
def updateSRSCard (now : ℚ) (current : SRSState) (rating : SRSRating) : SRSState :=
  let interval := current.interval
  let ease := current.ease
  let repetitions := current.repetitions
  if rating = SRSRating.again then
    let repetitions := 0
    let interval : ℚ := 0
    let ease := max (13/10) (ease - 2/10)
    let nextReview := now + interval * (24 * 60 * 60 * 1000)
    { current with nextReview := nextReview, interval := interval,
                   ease := ease, repetitions := repetitions }
  else
    let interval : ℚ :=
      if repetitions = 0 then 1
      else if repetitions = 1 then 6
      else (Int.ceil (interval *
        (if rating = SRSRating.hard then 12/10
         else if rating = SRSRating.good then ease else ease * (3/2))) : ℚ)
    let repetitions := repetitions + 1
    let ease := if rating = SRSRating.hard then max (13/10) (ease - 15/100) else ease
    let ease := if rating = SRSRating.easy then ease + 15/100 else ease
    let nextReview := now + interval * (24 * 60 * 60 * 1000)
    { current with nextReview := nextReview, interval := interval,
                   ease := ease, repetitions := repetitions }

/-- The transition rules exactly as the specification states them
(spec section 4.1, `applyRating`): written from the spec's words, to be
compared with `updateSRSCard`, which is translated from the source. -/
def applyRatingSpec (now : ℚ) (card : SRSState) (rating : SRSRating) : SRSState :=
  match rating with
  | SRSRating.again =>
      let newInterval : ℚ := 0
      { card with repetitions := 0, interval := newInterval,
                  ease := max (13/10) (card.ease - 2/10),
                  nextReview := now + newInterval * (24 * 60 * 60 * 1000) }
  | r =>
      let multiplier : ℚ :=
        match r with
        | SRSRating.hard => 12/10
        | SRSRating.easy => card.ease * (3/2)
        | _ => card.ease
      let newInterval : ℚ :=
        if card.repetitions = 0 then 1
        else if card.repetitions = 1 then 6
        else (Int.ceil (card.interval * multiplier) : ℚ)
      let newEase : ℚ :=
        match r with
        | SRSRating.hard => max (13/10) (card.ease - 15/100)
        | SRSRating.easy => card.ease + 15/100
        | _ => card.ease
      { card with interval := newInterval, ease := newEase,
                  repetitions := card.repetitions + 1,
                  nextReview := now + newInterval * (24 * 60 * 60 * 1000) }

/-- The baseline state a card is created with (src/App.tsx,
`toggleBookmark`): zero interval, ease 2.3, zero repetitions, due now. -/
def freshSRSState (cardId : String) (now : ℚ) : SRSState :=
  { cardId := cardId, nextReview := now, interval := 0, ease := 23/10, repetitions := 0 }

/-- The default state `updateSRS` synthesizes for a card id with no stored
state (src/App.tsx line 228). -/
def defaultSRSState (cardId : String) : SRSState :=
  { cardId := cardId, nextReview := 0, interval := 0, ease := 23/10, repetitions := 0 }

/-- The map-level `updateSRS` (src/App.tsx lines 226-245): looks the card
up (falling back to the synthesized default), applies the transition, and
stores the result; all other keys are unchanged. -/
def updateSRS (now : ℚ) (srsStates : String → Option SRSState)
    (cardId : String) (rating : SRSRating) : String → Option SRSState :=
  let current := (srsStates cardId).getD (defaultSRSState cardId)
  fun key => if key = cardId then some (updateSRSCard now current rating) else srsStates key

/-- Applying a whole review sequence: each element carries the wall-clock
time of the review and the rating given. -/
def applyRatingList (start : SRSState) (reviews : List (ℚ × SRSRating)) : SRSState :=
  reviews.foldl (fun st p => updateSRSCard p.1 st p.2) start

/-- The state of a fresh card after `n` consecutive `good` ratings, the
review at step `k` happening at time `τ k`. -/
def goodStreak (cardId : String) (start : ℚ) (τ : ℕ → ℚ) : ℕ → SRSState
  | 0 => freshSRSState cardId start
  | n + 1 => updateSRSCard (τ n) (goodStreak cardId start τ n) SRSRating.good

lemma updateSRSCard_ease (now : ℚ) (s : SRSState) (r : SRSRating) :
    (updateSRSCard now s r).ease =
      match r with
      | SRSRating.again => max (13/10) (s.ease - 2/10)
      | SRSRating.hard => max (13/10) (s.ease - 15/100)
      | SRSRating.good => s.ease
      | SRSRating.easy => s.ease + 15/100 := by
  cases r <;> rfl

lemma updateSRSCard_good_interval (now : ℚ) (s : SRSState) :
    (updateSRSCard now s SRSRating.good).interval =
      if s.repetitions = 0 then 1
      else if s.repetitions = 1 then 6
      else ((Int.ceil (s.interval * s.ease) : ℤ) : ℚ) := by
  rfl

lemma updateSRSCard_good_repetitions (now : ℚ) (s : SRSState) :
    (updateSRSCard now s SRSRating.good).repetitions = s.repetitions + 1 := by
  rfl

lemma ease_floor_step (now : ℚ) (s : SRSState) (r : SRSRating)
    (h : 13/10 ≤ s.ease) : 13/10 ≤ (updateSRSCard now s r).ease := by
  rw [updateSRSCard_ease]
  cases r
  · exact le_max_left _ _
  · exact le_max_left _ _
  · exact h
  · show (13/10 : ℚ) ≤ s.ease + 15/100
    linarith

lemma ease_floor_fold (s : SRSState) (reviews : List (ℚ × SRSRating))
    (h : 13/10 ≤ s.ease) : 13/10 ≤ (applyRatingList s reviews).ease := by
  induction reviews generalizing s with
  | nil => simpa [applyRatingList] using h
  | cons p rest ih =>
      simpa [applyRatingList] using ih _ (ease_floor_step p.1 s p.2 h)

/-- After `n` good ratings from a fresh card: ease still 2.3, repetition
count `n`, interval non-negative. -/
lemma goodStreak_invariant (cardId : String) (start : ℚ) (τ : ℕ → ℚ) (n : ℕ) :
    (goodStreak cardId start τ n).ease = 23/10 ∧
    (goodStreak cardId start τ n).repetitions = n ∧
    0 ≤ (goodStreak cardId start τ n).interval := by
  induction n with
  | zero => simp [goodStreak, freshSRSState]
  | succ n ih =>
      obtain ⟨he, hr, hi⟩ := ih
      refine ⟨?_, ?_, ?_⟩
      · rw [goodStreak, updateSRSCard_ease, he]
      · rw [goodStreak, updateSRSCard_good_repetitions, hr]
      · rw [goodStreak, updateSRSCard_good_interval, he]
        split
        · norm_num
        · split
          · norm_num
          · refine le_trans ?_ (Int.le_ceil _)
            positivity

/-- C1. For every card state and rating, `updateSRS`'s per-card transition
returns exactly the state given by the spec's transition rules: `again`
resets repetitions and interval and floors ease at 1.3 after subtracting
0.2; otherwise the interval becomes 1, 6, or `ceil(interval * multiplier)`
with multiplier 1.2 / pre-adjustment ease / ease * 1.5 for hard / good /
easy, repetitions increment, ease is adjusted per rating; in every case
`nextReview` becomes `now + interval` days. -/
theorem updateSRSCard_eq_applyRatingSpec (now : ℚ) (card : SRSState) (rating : SRSRating) :
    updateSRSCard now card rating = applyRatingSpec now card rating := by
  cases rating <;> rfl

/-- C2. Starting from the creation baseline (ease 2.3), the ease factor is
at least 1.3 after every prefix of every finite sequence of rated reviews. -/
theorem srs_ease_floor (cardId : String) (start : ℚ)
    (reviews : List (ℚ × SRSRating)) (k : ℕ) :
    13/10 ≤ (applyRatingList (freshSRSState cardId start) (reviews.take k)).ease :=
  ease_floor_fold _ _ (by norm_num [freshSRSState])

/-- C3. From a fresh card, repeated `good` ratings give the interval
sequence 0, 1, 6, ceil(6 * ease), ... and the sequence is non-decreasing
at every step. -/
theorem goodStreak_intervals (cardId : String) (start : ℚ) (τ : ℕ → ℚ) :
    (goodStreak cardId start τ 0).interval = 0 ∧
    (goodStreak cardId start τ 1).interval = 1 ∧
    (goodStreak cardId start τ 2).interval = 6 ∧
    (goodStreak cardId start τ 3).interval = ((Int.ceil ((6 : ℚ) * (23/10)) : ℤ) : ℚ) ∧
    ∀ n, (goodStreak cardId start τ n).interval ≤ (goodStreak cardId start τ (n + 1)).interval := by
  refine ⟨?_, ?_, ?_, ?_, ?_⟩
  · simp [goodStreak, freshSRSState]
  · simp [goodStreak, freshSRSState, updateSRSCard]
  · simp [goodStreak, freshSRSState, updateSRSCard]
  · simp [goodStreak, freshSRSState, updateSRSCard]
  · intro n
    obtain ⟨he, hr, hi⟩ := goodStreak_invariant cardId start τ n
    show (goodStreak cardId start τ n).interval ≤
      (updateSRSCard (τ n) (goodStreak cardId start τ n) SRSRating.good).interval
    rw [updateSRSCard_good_interval, he]
    split
    · rename_i h0
      have hn : n = 0 := by rw [← hr, h0]
      subst hn
      simp [goodStreak, freshSRSState]
    · split
      · rename_i h0 h1
        have hn : n = 1 := by rw [← hr, h1]
        subst hn
        simp [goodStreak, freshSRSState, updateSRSCard]
      · refine le_trans ?_ (Int.le_ceil _)
        nlinarith [hi]

/-- C10. Rating a card id with no stored state never fails: the default
state (interval 0, ease 2.3, repetitions 0, nextReview 0) is synthesized,
the normal transition is applied to it and stored, and every other key's
state is unchanged. -/
theorem updateSRS_missing_card (now : ℚ) (srsStates : String → Option SRSState)
    (cardId : String) (rating : SRSRating) (h : srsStates cardId = none) :
    updateSRS now srsStates cardId rating cardId =
      some (updateSRSCard now (defaultSRSState cardId) rating) ∧
    ∀ key, key ≠ cardId → updateSRS now srsStates cardId rating key = srsStates key := by
  constructor
  · simp [updateSRS, h]
  · intro key hk
    simp [updateSRS, hk]

theorem updateSRS_missing_card_witness :
    updateSRS 0 (fun _ => none) "c1" SRSRating.good "c1" =
      some (updateSRSCard 0 (defaultSRSState "c1") SRSRating.good) ∧
    ∀ key, key ≠ "c1" → updateSRS 0 (fun _ => none) "c1" SRSRating.good key = none :=
  updateSRS_missing_card 0 (fun _ => none) "c1" SRSRating.good rfl

/-! ## Topic canonicalization (src/components/AnalyticsView.tsx, `dissectClinicalTopic`) -/

/-- Lower-casing as JavaScript `toLowerCase` does for the ASCII labels used
here: character-wise lower-casing. -/
def lowerStr (s : String) : String := String.mk (s.toList.map Char.toLower)

/-- JavaScript `hay.includes(needle)`: case-sensitive substring test. -/
def strIncludes (hay needle : String) : Bool := decide (needle.toList <:+: hay.toList)

/-- The ignore set of exam/meta labels (AnalyticsView.tsx line 14). -/
def ignoreList : List String :=
  ["step 1", "step 2", "step 3", "board", "style", "nbme", "free 120",
   "high yield", "review", "test", "usmle", "plab", "comlex"]

/-- The broad-system set of coarse specialty names (AnalyticsView.tsx line 15). -/
def broadSystems : List String :=
  ["surgery", "medicine", "pediatrics", "obgyn", "psychiatry", "cardiology",
   "gi", "renal", "respiratory", "neurology", "gastroenterology", "pulmonology",
   "endocrinology", "hematology", "oncology", "infectious disease",
   "rheumatology", "dermatology", "ophthalmology", "ent", "orthopedics",
   "urology", "gynecology", "obstetrics", "family medicine",
   "emergency medicine", "internal medicine"]

/-- The scan loop of `dissectClinicalTopic`, carrying the remembered
broad-system fallback (initially null). -/
def dissectGo : List String → Option String → Option String
  | [], fallbackBroadSystem => fallbackBroadSystem
  | tag :: rest, fallbackBroadSystem =>
      let lowerTag := lowerStr tag
      if ignoreList.any (fun ignore => strIncludes lowerTag ignore) then
        dissectGo rest fallbackBroadSystem
      else if broadSystems.any (fun broad => strIncludes lowerTag broad) then
        dissectGo rest (if fallbackBroadSystem.isSome then fallbackBroadSystem else some tag)
      else
        some tag

/-- `dissectClinicalTopic` (AnalyticsView.tsx lines 11-35): the canonical
topic selected from a question's tags, or null. -/
def dissectClinicalTopic (tags : List String) : Option String :=
  if tags.isEmpty then none else dissectGo tags none

/-- Whether a tag contains (case-insensitively) an ignore-set term. -/
def isIgnoredTag (tag : String) : Bool :=
  ignoreList.any (fun ignore => strIncludes (lowerStr tag) ignore)

/-- Whether a tag contains (case-insensitively) a broad-system term. -/
def isBroadTag (tag : String) : Bool :=
  broadSystems.any (fun broad => strIncludes (lowerStr tag) broad)

/-- The canonicalization rule as the specification words it: the first tag
matching neither set wins; otherwise the first non-ignored broad-system tag;
otherwise null. Written from the spec's words, to be compared with
`dissectClinicalTopic`. -/
def canonicalTopicSpec (tags : List String) : Option String :=
  match tags.find? (fun t => !isIgnoredTag t && !isBroadTag t) with
  | some t => some t
  | none => tags.find? (fun t => !isIgnoredTag t && isBroadTag t)

lemma dissectGo_cons (tag : String) (rest : List String) (fb : Option String) :
    dissectGo (tag :: rest) fb =
      if isIgnoredTag tag then dissectGo rest fb
      else if isBroadTag tag then
        dissectGo rest (if fb.isSome then fb else some tag)
      else some tag := by
  rfl

lemma dissectGo_eq (tags : List String) (fb : Option String) :
    dissectGo tags fb =
      match tags.find? (fun t => !isIgnoredTag t && !isBroadTag t) with
      | some t => some t
      | none =>
          match fb with
          | some x => some x
          | none => tags.find? (fun t => !isIgnoredTag t && isBroadTag t) := by
  induction tags generalizing fb with
  | nil => cases fb <;> rfl
  | cons tag rest ih =>
      rw [dissectGo_cons]
      by_cases hig : isIgnoredTag tag = true
      · rw [if_pos hig, List.find?_cons_of_neg _ (p := fun t => !isIgnoredTag t && !isBroadTag t) (by simp [hig]),
            List.find?_cons_of_neg _ (p := fun t => !isIgnoredTag t && isBroadTag t) (by simp [hig])]
        exact ih fb
      · by_cases hbr : isBroadTag tag = true
        · rw [if_neg hig, if_pos hbr,
              List.find?_cons_of_neg _ (p := fun t => !isIgnoredTag t && !isBroadTag t) (by simp [hbr]),
              List.find?_cons_of_pos _ (p := fun t => !isIgnoredTag t && isBroadTag t) (by simp [hig, hbr]),
              ih]
          cases h1 : List.find? (fun t => !isIgnoredTag t && !isBroadTag t) rest <;>
            cases fb <;> simp
        · rw [if_neg hig, if_neg hbr,
              List.find?_cons_of_pos _ (p := fun t => !isIgnoredTag t && !isBroadTag t) (by simp [hig, hbr])]

/-- C4. `dissectClinicalTopic` scans tags in order, skipping ignored tags,
remembering the first broad-system tag as a fallback while continuing, and
returning the first tag matching neither set, falling back to the
remembered broad tag and then to null — equivalently the spec's first-match
rule — and in particular maps the three documented examples as specified. -/
theorem dissectClinicalTopic_spec :
    (∀ tags, dissectClinicalTopic tags = canonicalTopicSpec tags) ∧
    dissectClinicalTopic ["Step 2", "Cardiology", "Aortic Dissection"] = some "Aortic Dissection" ∧
    dissectClinicalTopic ["USMLE", "Surgery"] = some "Surgery" ∧
    dissectClinicalTopic ["NBME", "Step 1"] = none := by
  refine ⟨?_, by decide, by decide, by decide⟩
  intro tags
  cases tags with
  | nil => rfl
  | cons tag rest =>
      rw [dissectClinicalTopic, if_neg (by simp), dissectGo_eq, canonicalTopicSpec]

/-! ## Weakness ranking (src/components/AnalyticsView.tsx, `subtopicData` sort) -/

/-- One row of `subtopicData` (AnalyticsView.tsx lines 257-271): a topic
bucket with its derived display fields. -/
structure TagBucket where
  name : String
  accuracy : ℤ
  correct : ℤ
  total : ℤ
  recentAccuracy : ℤ
  urgency : ℚ
deriving DecidableEq, Repr

/-- The `weakness` comparator (AnalyticsView.tsx lines 280-286), returning
a JavaScript-style negative/zero/positive number; `x || y` on numbers is
`x` unless `x` is zero. -/
def weaknessCompare (a b : TagBucket) : ℤ :=
  if 3 ≤ a.total ∧ ¬ 3 ≤ b.total then -1
  else if ¬ 3 ≤ a.total ∧ 3 ≤ b.total then 1
  else if a.accuracy - b.accuracy ≠ 0 then a.accuracy - b.accuracy
  else b.total - a.total

/-- The ordering induced by the comparator: `a` may come before `b`. -/
def weaknessOrder (a b : TagBucket) : Prop := weaknessCompare a b ≤ 0

instance : DecidableRel weaknessOrder :=
  fun a b => inferInstanceAs (Decidable (weaknessCompare a b ≤ 0))

instance : IsTrans TagBucket weaknessOrder := by
  constructor
  intro a b c hab hbc
  simp only [weaknessOrder, weaknessCompare] at *
  split_ifs at * <;> omega

instance : IsTotal TagBucket weaknessOrder := by
  constructor
  intro a b
  simp only [weaknessOrder, weaknessCompare]
  split_ifs <;> omega

/-- Sorting the bucket list under the `weakness` mode: a sort consistent
with the comparator, as `Array.prototype.sort` guarantees. -/
def sortByWeakness (buckets : List TagBucket) : List TagBucket :=
  buckets.insertionSort weaknessOrder

lemma weaknessOrder_imp (a b : TagBucket) (h : weaknessOrder a b) :
    (3 ≤ b.total → 3 ≤ a.total) ∧
    ((3 ≤ a.total ↔ 3 ≤ b.total) →
      a.accuracy < b.accuracy ∨ (a.accuracy = b.accuracy ∧ b.total ≤ a.total)) := by
  simp only [weaknessOrder, weaknessCompare] at h
  split_ifs at h <;> omega

/-- Bucket A of the spec's weakness-sort scenario: 2 answers, 0 correct. -/
def bucketA : TagBucket :=
  { name := "A", accuracy := 0, correct := 0, total := 2, recentAccuracy := 0, urgency := 2 }

/-- Bucket B of the spec's weakness-sort scenario: 5 answers, 40% accuracy. -/
def bucketB : TagBucket :=
  { name := "B", accuracy := 40, correct := 2, total := 5, recentAccuracy := 40, urgency := 3 }

/-- C5. Under the weakness sort, the output is a permutation of the input
(low-sample buckets demoted, never removed) in which a bucket with
`total ≥ 3` never follows one with `total < 3`, and within a validity
group accuracy ascends with ties broken by descending total; in
particular bucket B (total 5, accuracy 40) ranks before bucket A
(total 2, accuracy 0). -/
theorem sortByWeakness_spec :
    (∀ buckets : List TagBucket,
        (sortByWeakness buckets).Perm buckets ∧
        (sortByWeakness buckets).Pairwise (fun a b =>
          (3 ≤ b.total → 3 ≤ a.total) ∧
          ((3 ≤ a.total ↔ 3 ≤ b.total) →
            a.accuracy < b.accuracy ∨ (a.accuracy = b.accuracy ∧ b.total ≤ a.total)))) ∧
    sortByWeakness [bucketA, bucketB] = [bucketB, bucketA] := by
  constructor
  · intro buckets
    refine ⟨List.perm_insertionSort weaknessOrder buckets, ?_⟩
    exact (List.sorted_insertionSort weaknessOrder buckets).imp
      (fun h => weaknessOrder_imp _ _ h)
  · decide

/-! ## Topic aggregation (src/components/AnalyticsView.tsx, `tagStats`) -/

/-- One entry of a session's `details`: which question, answered correctly
or not. -/
structure SessionDetail where
  questionId : String
  isCorrect : Bool
deriving DecidableEq, Repr

/-- The question metadata the aggregation reads (`Question` in types):
free-text tags and canonical clinical-concept labels. -/
structure Question where
  id : String
  tags : List String
  clinicalConcepts : List String
deriving DecidableEq, Repr

/-- One completed study block (`HistoricalSession` in types): the fields
the analytics pass reads. The history list is stored newest-first. -/
structure HistoricalSession where
  id : String
  timestamp : ℚ
  totalQuestions : ℕ
  correctAnswers : ℕ
  timeTakenMs : ℚ
  details : List SessionDetail
deriving DecidableEq, Repr

/-- The topic keys one answered question contributes to (AnalyticsView.tsx
lines 224-236): composite `topic: concept` keys when both exist, the bare
topic when no concepts, bare concepts when no topic; collected into a
JavaScript `Set`, i.e. deduplicated in insertion order. -/
def keysToTrack (q : Question) : List String :=
  let cleanTopic := dissectClinicalTopic q.tags
  let concepts := q.clinicalConcepts
  let raw : List String :=
    match cleanTopic with
    | some topic =>
        if concepts.length > 0 then concepts.map (fun c => topic ++ ": " ++ c)
        else [topic]
    | none => if concepts.length > 0 then concepts else []
  raw.foldl (fun acc k => if k ∈ acc then acc else acc ++ [k]) []

/-- A topic bucket while being accumulated (AnalyticsView.tsx line 216):
counts plus the outcome list the code calls `history` (pushed to the
back). -/
structure TagStat where
  correct : ℕ
  total : ℕ
  history : List Bool
deriving DecidableEq, Repr

/-- Recording one outcome under one key (AnalyticsView.tsx lines 238-243):
materialize the bucket if absent, bump `total`, bump `correct` when the
answer was right, push the outcome to the back of the bucket's list. -/
def recordOutcome (stats : String → Option TagStat) (key : String) (isCorrect : Bool) :
    String → Option TagStat :=
  fun k =>
    if k = key then
      let st := (stats key).getD ⟨0, 0, []⟩
      some { correct := st.correct + (if isCorrect then 1 else 0),
             total := st.total + 1,
             history := st.history ++ [isCorrect] }
    else stats k

/-- Processing one answered question (AnalyticsView.tsx lines 221-243):
questions missing from the library are skipped; otherwise every key of
`keysToTrack` records the outcome. -/
def processDetail (questionLibrary : List (String × Question))
    (stats : String → Option TagStat) (detail : SessionDetail) :
    String → Option TagStat :=
  match questionLibrary.lookup detail.questionId with
  | none => stats
  | some q =>
      (keysToTrack q).foldl (fun st key => recordOutcome st key detail.isCorrect) stats

/-- The whole `tagStats` accumulation (AnalyticsView.tsx lines 216-255):
fold over the history as stored (newest session first), details in order. -/
def tagStats (questionLibrary : List (String × Question))
    (history : List HistoricalSession) : String → Option TagStat :=
  history.foldl (fun st s => s.details.foldl (processDetail questionLibrary) st)
    (fun _ => none)

/-- The outcome one detail contributes to a given key, if any. -/
def detailOutcome (questionLibrary : List (String × Question)) (key : String)
    (d : SessionDetail) : Option Bool :=
  match questionLibrary.lookup d.questionId with
  | none => none
  | some q => if key ∈ keysToTrack q then some d.isCorrect else none

/-- The outcomes recorded under a key, in processing order: sessions as
stored (newest first), details within a session in order. -/
def keyOutcomes (questionLibrary : List (String × Question))
    (history : List HistoricalSession) (key : String) : List Bool :=
  (history.flatMap (fun s => s.details)).filterMap (detailOutcome questionLibrary key)

/-- Overall accuracy of a bucket (AnalyticsView.tsx line 258). -/
def accuracyOf (st : TagStat) : ℤ := round (((st.correct : ℚ) / st.total) * 100)

/-- Recent accuracy of a bucket (AnalyticsView.tsx lines 259-261): over
the first five entries of the bucket's outcome list (`slice(0, 5)`),
falling back to the overall accuracy when that slice is empty. -/
def recentAccuracyOf (st : TagStat) : ℤ :=
  let recent5 := st.history.take 5
  let recentCorrect := (recent5.filter (fun b => b)).length
  if recent5.length > 0 then round (((recentCorrect : ℚ) / recent5.length) * 100)
  else accuracyOf st

/-- The recency buffer as the claim words it: the last five outcomes in
chronological order, most recent first (oldest dropped beyond five).
Chronological order reverses the stored newest-first session order, with a
session's details already chronological. Written from the spec's words,
to be compared with the source's `slice(0, 5)` buffer. -/
def recencyBufferClaim (questionLibrary : List (String × Question))
    (history : List HistoricalSession) (key : String) : List Bool :=
  (keyOutcomes questionLibrary history.reverse key).reverse.take 5

/-- Recent accuracy as the claim words it: rounded percentage of correct
outcomes over the claimed recency buffer, falling back to the bucket's
overall accuracy when the buffer is empty. Written from the spec's words. -/
def recentAccuracyClaim (questionLibrary : List (String × Question))
    (history : List HistoricalSession) (key : String) : ℤ :=
  let buffer := recencyBufferClaim questionLibrary history key
  let outs := keyOutcomes questionLibrary history key
  if buffer.length > 0 then
    round ((((buffer.filter (fun b => b)).length : ℚ) / buffer.length) * 100)
  else round ((((outs.filter (fun b => b)).length : ℚ) / outs.length) * 100)

/-- Extending a possibly-absent bucket with a batch of outcomes. -/
def extendStat (st : Option TagStat) (outs : List Bool) : Option TagStat :=
  if outs.isEmpty then st
  else
    let base := st.getD ⟨0, 0, []⟩
    some { correct := base.correct + ((outs.filter (fun b => b)).length),
           total := base.total + outs.length,
           history := base.history ++ outs }

lemma extendStat_append (st : Option TagStat) (a b : List Bool) :
    extendStat (extendStat st a) b = extendStat st (a ++ b) := by
  by_cases ha : a = []
  · subst ha
    simp [extendStat]
  · by_cases hb : b = []
    · subst hb
      simp [extendStat]
    · have ha' : a.isEmpty = false := by simpa using ha
      have hb' : b.isEmpty = false := by simpa using hb
      have hab : (a ++ b).isEmpty = false := by simp [ha]
      simp only [extendStat, ha', hb', hab, Bool.false_eq_true, if_false, Option.getD_some]
      simp [List.filter_append, add_assoc]

lemma recordOutcome_apply_ne (m : String → Option TagStat) (key k : String) (c : Bool)
    (h : k ≠ key) : recordOutcome m key c k = m k := by
  simp [recordOutcome, h]

lemma recordOutcome_apply (m : String → Option TagStat) (key : String) (c : Bool) :
    recordOutcome m key c key = extendStat (m key) [c] := by
  cases c <;> simp [recordOutcome, extendStat]

lemma foldl_recordOutcome_not_mem (ks : List String) (m : String → Option TagStat)
    (c : Bool) (key : String) (h : key ∉ ks) :
    (ks.foldl (fun st k => recordOutcome st k c) m) key = m key := by
  induction ks generalizing m with
  | nil => rfl
  | cons k rest ih =>
      rw [List.foldl_cons, ih _ (List.not_mem_of_not_mem_cons h),
        recordOutcome_apply_ne _ _ _ _ (List.ne_of_not_mem_cons h)]

lemma foldl_recordOutcome_mem (ks : List String) (m : String → Option TagStat)
    (c : Bool) (key : String) (hnd : ks.Nodup) (h : key ∈ ks) :
    (ks.foldl (fun st k => recordOutcome st k c) m) key = extendStat (m key) [c] := by
  induction ks generalizing m with
  | nil => exact absurd h (List.not_mem_nil key)
  | cons k rest ih =>
      rw [List.foldl_cons]
      by_cases hk : key = k
      · subst hk
        rw [foldl_recordOutcome_not_mem _ _ _ _ (List.Nodup.not_mem hnd),
          recordOutcome_apply]
      · rw [ih _ (List.Nodup.of_cons hnd) ((List.mem_cons.mp h).resolve_left hk),
          recordOutcome_apply_ne _ _ _ _ hk]

lemma dedup_foldl_nodup (l acc : List String) (h : acc.Nodup) :
    (l.foldl (fun acc k => if k ∈ acc then acc else acc ++ [k]) acc).Nodup := by
  induction l generalizing acc with
  | nil => exact h
  | cons x rest ih =>
      rw [List.foldl_cons]
      by_cases hx : x ∈ acc
      · rw [if_pos hx]
        exact ih _ h
      · rw [if_neg hx]
        refine ih _ ?_
        rw [List.nodup_append]
        refine ⟨h, List.nodup_singleton x, ?_⟩
        intro a ha hax
        rw [List.mem_singleton.mp hax] at ha
        exact hx ha

lemma keysToTrack_nodup (q : Question) : (keysToTrack q).Nodup :=
  dedup_foldl_nodup _ _ List.nodup_nil

lemma processDetail_apply (questionLibrary : List (String × Question))
    (m : String → Option TagStat) (d : SessionDetail) (key : String) :
    processDetail questionLibrary m d key =
      extendStat (m key) ((detailOutcome questionLibrary key d).toList) := by
  cases h : questionLibrary.lookup d.questionId with
  | none => simp [processDetail, detailOutcome, h, extendStat]
  | some q =>
      simp only [processDetail, detailOutcome, h]
      by_cases hk : key ∈ keysToTrack q
      · rw [if_pos hk, foldl_recordOutcome_mem _ _ _ _ (keysToTrack_nodup q) hk]
        rfl
      · rw [if_neg hk, foldl_recordOutcome_not_mem _ _ _ _ hk]
        simp [extendStat]

lemma foldl_processDetail (questionLibrary : List (String × Question))
    (details : List SessionDetail) (m : String → Option TagStat) (key : String) :
    (details.foldl (processDetail questionLibrary) m) key =
      extendStat (m key) (details.filterMap (detailOutcome questionLibrary key)) := by
  induction details generalizing m with
  | nil => simp [extendStat]
  | cons d rest ih =>
      rw [List.foldl_cons, ih, processDetail_apply, extendStat_append]
      congr 1
      cases h : detailOutcome questionLibrary key d <;> simp [List.filterMap_cons, h]

lemma foldl_sessions (questionLibrary : List (String × Question))
    (history : List HistoricalSession) (m : String → Option TagStat) (key : String) :
    (history.foldl (fun st s => s.details.foldl (processDetail questionLibrary) st) m) key =
      extendStat (m key) (keyOutcomes questionLibrary history key) := by
  induction history generalizing m with
  | nil => simp [keyOutcomes, extendStat]
  | cons s rest ih =>
      rw [List.foldl_cons, ih, foldl_processDetail, extendStat_append]
      congr 1
      simp [keyOutcomes, List.filterMap_append]

lemma tagStats_apply (questionLibrary : List (String × Question))
    (history : List HistoricalSession) (key : String) :
    tagStats questionLibrary history key =
      extendStat none (keyOutcomes questionLibrary history key) :=
  foldl_sessions questionLibrary history (fun _ => none) key

/-- C6 (amended). A bucket is materialized exactly when some outcome was
recorded under its key; its counts and outcome list are exactly the
outcomes in processing order (sessions as stored, newest first, details
in order, appended at the back, uncapped); and `recentAccuracy` is the
rounded percentage of correct outcomes over the FIRST five entries of
that list. -/
theorem tagStats_recency_spec :
    ∀ (questionLibrary : List (String × Question)) (history : List HistoricalSession)
      (key : String),
      (tagStats questionLibrary history key = none ↔
        keyOutcomes questionLibrary history key = []) ∧
      ∀ st, tagStats questionLibrary history key = some st →
        st.history = keyOutcomes questionLibrary history key ∧
        st.total = (keyOutcomes questionLibrary history key).length ∧
        st.correct = ((keyOutcomes questionLibrary history key).filter (fun b => b)).length ∧
        recentAccuracyOf st =
          round ((((((keyOutcomes questionLibrary history key).take 5).filter
              (fun b => b)).length : ℚ) /
            ((keyOutcomes questionLibrary history key).take 5).length) * 100) := by
  intro questionLibrary history key
  have h := tagStats_apply questionLibrary history key
  by_cases hout : keyOutcomes questionLibrary history key = []
  · rw [hout] at h
    simp only [extendStat, List.isEmpty_nil, if_true] at h
    refine ⟨⟨fun _ => hout, fun _ => h⟩, fun st hst => absurd (hst ▸ h) (by simp)⟩
  · have hne : (keyOutcomes questionLibrary history key).isEmpty = false := by
      simpa using hout
    rw [extendStat, hne] at h
    simp only [Bool.false_eq_true, if_false, Option.getD_none] at h
    refine ⟨⟨fun hn => absurd (hn ▸ h) (by simp), fun he => absurd he hout⟩, ?_⟩
    intro st hst
    rw [h] at hst
    obtain rfl : st = _ := (Option.some_inj.mp hst).symm
    refine ⟨by simp, by simp, by simp, ?_⟩
    have htake : 0 < ((keyOutcomes questionLibrary history key).take 5).length := by
      simp only [List.length_take]
      have : 0 < (keyOutcomes questionLibrary history key).length :=
        List.length_pos.mpr hout
      omega
    simp only [recentAccuracyOf, List.nil_append]
    rw [if_pos htake]

/-- A question of the recency counterexample: a single specific clinical
tag, no concept labels. -/
def exQuestion (qid : String) : Question :=
  { id := qid, tags := ["Pneumonia"], clinicalConcepts := [] }

/-- The question library of the recency counterexample. -/
def exLibrary : List (String × Question) :=
  [("q1", exQuestion "q1"), ("q2", exQuestion "q2"), ("q3", exQuestion "q3"),
   ("q4", exQuestion "q4"), ("q5", exQuestion "q5"), ("q6", exQuestion "q6")]

/-- One session answering the six questions in order, the first five
correctly and the last one incorrectly. -/
def exSession : HistoricalSession :=
  { id := "s1", timestamp := 0, totalQuestions := 6, correctAnswers := 5,
    timeTakenMs := 60000,
    details := [⟨"q1", true⟩, ⟨"q2", true⟩, ⟨"q3", true⟩,
                ⟨"q4", true⟩, ⟨"q5", true⟩, ⟨"q6", false⟩] }

/-- The stored history of the counterexample: just that one session. -/
def exHistory : List HistoricalSession := [exSession]

/-- C6 counterexample. On a single session whose six answers all hit the
bucket `Pneumonia` (five correct then one wrong), the code computes
`recentAccuracy = 100` — its `slice(0, 5)` keeps the five OLDEST outcomes
of the session — while the claimed buffer of the last five outcomes
most-recent-first is `[false, true, true, true, true]`, giving 80. -/
theorem tagStats_recency_counterexample :
    (tagStats exLibrary exHistory "Pneumonia").map recentAccuracyOf = some 100 ∧
    recencyBufferClaim exLibrary exHistory "Pneumonia" = [false, true, true, true, true] ∧
    recentAccuracyClaim exLibrary exHistory "Pneumonia" = 80 := by
  have hstats : tagStats exLibrary exHistory "Pneumonia" =
      some ⟨5, 6, [true, true, true, true, true, false]⟩ := by decide
  have hbuf : recencyBufferClaim exLibrary exHistory "Pneumonia" =
      [false, true, true, true, true] := by decide
  refine ⟨?_, hbuf, ?_⟩
  · rw [hstats]
    show some (recentAccuracyOf ⟨5, 6, [true, true, true, true, true, false]⟩) = some 100
    norm_num [recentAccuracyOf, round_eq]
  · rw [recentAccuracyClaim, hbuf]
    norm_num [round_eq]

/-! ## Lifetime stats (DatabaseService.updateAnalytics) -/

/-- Chronological comparison of sessions by timestamp, the comparator of
the `sort` in `updateAnalytics`. -/
def byTimestamp (a b : HistoricalSession) : Prop := a.timestamp ≤ b.timestamp

instance : DecidableRel byTimestamp :=
  fun a b => inferInstanceAs (Decidable (a.timestamp ≤ b.timestamp))

instance : IsTotal HistoricalSession byTimestamp :=
  ⟨fun a b => le_total a.timestamp b.timestamp⟩

instance : IsTrans HistoricalSession byTimestamp :=
  ⟨fun _ _ _ hab hbc => le_trans hab hbc⟩

/-- The history sorted chronologically ascending, as `updateAnalytics`
sorts a copy of it. -/
def sortedHistory (history : List HistoricalSession) : List HistoricalSession :=
  history.insertionSort byTimestamp

/-- The timestamp of the head of the chronologically sorted history
(`sortedHistory[0].timestamp`); 0 as the out-of-range placeholder the
nonempty branch never hits. -/
def firstSessionDate (history : List HistoricalSession) : ℚ :=
  match sortedHistory history with
  | [] => 0
  | s :: _ => s.timestamp

/-- JavaScript `Number(x.toFixed(1))`: round to one decimal place, ties
away from zero upward. -/
def roundTo1 (x : ℚ) : ℚ := ((round (x * 10) : ℤ) : ℚ) / 10

/-- The derived lifetime aggregate (`LifetimeStats` in types). -/
structure LifetimeStats where
  totalQuestions : ℕ
  totalCorrect : ℕ
  totalHours : ℚ
  avgAccuracy : ℤ
  firstSessionDate : ℚ
deriving DecidableEq, Repr

/-- `DatabaseService.updateAnalytics` (src/unnamed/part_000 lines 84-111):
the pure recomputation of lifetime stats from a history snapshot, `now`
standing for `Date.now()` in the empty-history default. -/
def updateAnalytics (now : ℚ) (history : List HistoricalSession) : LifetimeStats :=
  if history.isEmpty then
    { totalQuestions := 0, totalCorrect := 0, totalHours := 0, avgAccuracy := 0,
      firstSessionDate := now }
  else
    let totalQuestions := history.foldl (fun acc s => acc + s.totalQuestions) 0
    let totalCorrect := history.foldl (fun acc s => acc + s.correctAnswers) 0
    let totalTimeMs := history.foldl (fun acc s => acc + s.timeTakenMs) 0
    { totalQuestions := totalQuestions,
      totalCorrect := totalCorrect,
      totalHours := roundTo1 (totalTimeMs / 3600000),
      avgAccuracy := round (((totalCorrect : ℚ) / totalQuestions) * 100),
      firstSessionDate := firstSessionDate history }

/-- C8. On an empty history `updateAnalytics` totals are all zero with the
default first-session date; on the single documented session it yields
avgAccuracy 70, totalHours 0.2 and totalQuestions 10; and on any nonempty
history the reported first-session date is the timestamp of a
chronologically earliest session. -/
theorem updateAnalytics_spec :
    (∀ now, updateAnalytics now [] =
      { totalQuestions := 0, totalCorrect := 0, totalHours := 0, avgAccuracy := 0,
        firstSessionDate := now }) ∧
    (∀ now ts sid, updateAnalytics now [⟨sid, ts, 10, 7, 600000, []⟩] =
      { totalQuestions := 10, totalCorrect := 7, totalHours := 2/10,
        avgAccuracy := 70, firstSessionDate := ts }) ∧
    (∀ now history, history ≠ [] →
      ∃ s, s ∈ history ∧ (updateAnalytics now history).firstSessionDate = s.timestamp ∧
        ∀ t ∈ history, s.timestamp ≤ t.timestamp) := by
  refine ⟨fun now => rfl, ?_, ?_⟩
  · intro now ts sid
    simp only [updateAnalytics, List.isEmpty_cons, Bool.false_eq_true, if_false,
      List.foldl_cons, List.foldl_nil, LifetimeStats.mk.injEq,
      firstSessionDate, sortedHistory, List.insertionSort]
    norm_num [roundTo1, round_eq]
  · intro now history hne
    have hperm : (sortedHistory history).Perm history :=
      List.perm_insertionSort byTimestamp history
    have hsorted : List.Sorted byTimestamp (sortedHistory history) :=
      List.sorted_insertionSort byTimestamp history
    have hfirst : (updateAnalytics now history).firstSessionDate =
        firstSessionDate history := by
      have : history.isEmpty = false := by simpa using hne
      simp [updateAnalytics, this]
    cases hs : sortedHistory history with
    | nil =>
        rw [hs] at hperm
        exact absurd hperm.symm.eq_nil hne
    | cons s rest =>
        refine ⟨s, ?_, ?_, ?_⟩
        · exact hperm.mem_iff.mp (hs ▸ List.mem_cons_self s rest)
        · rw [hfirst, firstSessionDate, hs]
        · intro t ht
          have hts : t ∈ s :: rest := hs ▸ hperm.mem_iff.mpr ht
          rcases List.mem_cons.mp hts with rfl | htr
          · exact le_refl _
          · rw [hs] at hsorted
            exact List.rel_of_sorted_cons hsorted t htr

/-! ## Due-item selection (src/App.tsx, `dueSRSItems`) -/

/-- A generated mastery artifact (`MasteryCard` in types): the fields the
due-item resolution reads. -/
structure MasteryCard where
  id : String
  parentId : String
deriving DecidableEq, Repr

/-- A renderable due review item: a full vignette question or a mastery
artifact, as `dueSRSItems` tags them. -/
inductive DueItem
  | vignette (q : Question)
  | mastery (c : MasteryCard)
deriving DecidableEq, Repr

/-- Scanning the mastery collections (keyed by parent question id, in
insertion order) for a card with the given id, as the `for...in` loop of
`dueSRSItems` does. -/
def findMasteryCard (masteryCards : List (String × List MasteryCard))
    (cardId : String) : Option MasteryCard :=
  masteryCards.findSome? (fun p => p.2.find? (fun c => c.id == cardId))

/-- Resolving one due card id (src/App.tsx lines 498-504): question
library first, then the mastery collections, else null (orphan). -/
def resolveDueCard (questionLibrary : List (String × Question))
    (masteryCards : List (String × List MasteryCard)) (cardId : String) : Option DueItem :=
  match questionLibrary.lookup cardId with
  | some q => some (DueItem.vignette q)
  | none =>
      match findMasteryCard masteryCards cardId with
      | some c => some (DueItem.mastery c)
      | none => none

/-- `dueSRSItems` (src/App.tsx lines 495-506): filter the stored states to
those due at `now`, resolve each, drop the nulls. -/
def dueSRSItems (now : ℚ) (srsStates : List SRSState)
    (questionLibrary : List (String × Question))
    (masteryCards : List (String × List MasteryCard)) : List DueItem :=
  ((srsStates.filter (fun s => s.nextReview ≤ now)).map
    (fun s => resolveDueCard questionLibrary masteryCards s.cardId)).filterMap id

/-- C7. An item is returned exactly when some stored card is due
(`nextReview ≤ now`) and resolves to it; resolution prefers the question
library and otherwise scans the mastery collections; and a due card whose
id is in neither source is silently excluded, as the concrete orphan run
shows. -/
theorem dueSRSItems_spec :
    (∀ (now : ℚ) (srsStates : List SRSState)
       (questionLibrary : List (String × Question))
       (masteryCards : List (String × List MasteryCard)) (item : DueItem),
       item ∈ dueSRSItems now srsStates questionLibrary masteryCards ↔
         ∃ s, s ∈ srsStates ∧ s.nextReview ≤ now ∧
           resolveDueCard questionLibrary masteryCards s.cardId = some item) ∧
    (∀ (questionLibrary : List (String × Question))
       (masteryCards : List (String × List MasteryCard)) (cardId : String) (q : Question),
       questionLibrary.lookup cardId = some q →
       resolveDueCard questionLibrary masteryCards cardId = some (DueItem.vignette q)) ∧
    (∀ (questionLibrary : List (String × Question))
       (masteryCards : List (String × List MasteryCard)) (cardId : String),
       questionLibrary.lookup cardId = none →
       resolveDueCard questionLibrary masteryCards cardId =
         (findMasteryCard masteryCards cardId).map DueItem.mastery) ∧
    dueSRSItems 0 [⟨"ghost", 0, 0, 23/10, 0⟩] [] [] = [] := by
  refine ⟨?_, ?_, ?_, by decide⟩
  · intro now srsStates questionLibrary masteryCards item
    simp only [dueSRSItems, List.mem_filterMap, List.mem_map, List.mem_filter,
      id_eq, decide_eq_true_eq]
    constructor
    · rintro ⟨o, ⟨s, ⟨hs, hdue⟩, rfl⟩, hres⟩
      exact ⟨s, hs, hdue, hres⟩
    · rintro ⟨s, hs, hdue, hres⟩
      exact ⟨_, ⟨s, ⟨hs, hdue⟩, rfl⟩, hres⟩
  · intro questionLibrary masteryCards cardId q h
    simp [resolveDueCard, h]
  · intro questionLibrary masteryCards cardId h
    simp only [resolveDueCard, h]
    cases hf : findMasteryCard masteryCards cardId <;> simp [hf]

/-! ## Full import (DatabaseService.fullImport) -/

/-- The study-plan payload, opaque to the import logic. -/
abbrev StudyPlan := String

/-- The full persisted application state: the seven keys of the key-value
store (`AppData` in the database service). -/
structure AppData where
  history : List HistoricalSession
  bookmarks : List Question
  masteryCards : List (String × List MasteryCard)
  srsStates : List (String × SRSState)
  questionLibrary : List (String × Question)
  studyPlan : Option StudyPlan
  lifetimeStats : LifetimeStats
deriving DecidableEq

/-- The optional top-level fields of a parsed backup payload; `none`
stands for a key that is missing or null. -/
structure PayloadFields where
  history : Option (List HistoricalSession)
  bookmarks : Option (List Question)
  masteryCards : Option (List (String × List MasteryCard))
  srsStates : Option (List (String × SRSState))
  questionLibrary : Option (List (String × Question))
  studyPlan : Option StudyPlan
  lifetimeStats : Option LifetimeStats
deriving DecidableEq

/-- The JSON shapes a parse can produce, as the import's validation sees
them: null, a primitive (number/string/boolean, `typeof ≠ 'object'`), an
array, or an object with the recognized optional fields. -/
inductive ImportPayload
  | jnull
  | jprim
  | jarray
  | jobject (fields : PayloadFields)
deriving DecidableEq

/-- The validation `!parsed || typeof parsed !== 'object'`
(src/unnamed/part_000 line 123): null is falsy, primitives are not of
object type; arrays and objects both pass. -/
def passesValidation : ImportPayload → Bool
  | ImportPayload.jnull => false
  | ImportPayload.jprim => false
  | _ => true

/-- Reading the recognized keys off the parsed payload: an array (or any
object without them) yields undefined for each. -/
def payloadFields : ImportPayload → PayloadFields
  | ImportPayload.jobject fields => fields
  | _ => ⟨none, none, none, none, none, none, none⟩

/-- `DatabaseService.fullImport` (src/unnamed/part_000 lines 118-175),
observed at the level of the seven stored keys: `none` for the payload
stands for an unparseable input (JSON.parse threw). On validation failure
the catch returns false with the store untouched (reset happens only
after validation). On success the store is cleared and each key written
from the payload with the documented defaults for missing keys, and
`lifetimeStats` is recomputed from the imported history afterwards,
overwriting any imported value. -/
def fullImport (now : ℚ) (prior : AppData) (payload : Option ImportPayload) :
    Bool × AppData :=
  match payload with
  | none => (false, prior)
  | some parsed =>
      if passesValidation parsed then
        let data := payloadFields parsed
        (true,
          { history := data.history.getD [],
            bookmarks := data.bookmarks.getD [],
            masteryCards := data.masteryCards.getD [],
            srsStates := data.srsStates.getD [],
            questionLibrary := data.questionLibrary.getD [],
            studyPlan := data.studyPlan,
            lifetimeStats := updateAnalytics now (data.history.getD []) })
      else (false, prior)

/-- A prior store with one recorded session, for the import scenarios. -/
def priorData : AppData :=
  { history := [exSession], bookmarks := [], masteryCards := [], srsStates := [],
    questionLibrary := [], studyPlan := none,
    lifetimeStats := { totalQuestions := 6, totalCorrect := 5, totalHours := 0,
                       avgAccuracy := 83, firstSessionDate := 0 } }

/-- C9 counterexample. A parsed JSON array is not a JSON object, yet
the importer accepts it (returns true) and replaces the prior state with
the all-defaults store instead of rejecting atomically. -/
theorem fullImport_array_counterexample :
    (fullImport 0 priorData (some ImportPayload.jarray)).1 = true ∧
    (fullImport 0 priorData (some ImportPayload.jarray)).2.history = [] ∧
    priorData.history ≠ [] := by
  exact ⟨rfl, rfl, by decide⟩

/-- C9 (amended). Unparseable input, null and primitives are rejected
atomically with the prior state untouched; a payload of object type —
a check a JSON array also passes, importing as if every key were
missing — is imported with the documented defaults for missing keys
(empty lists, empty mappings, null study plan), and `lifetimeStats` is
never taken from the payload: it is recomputed from the imported history,
so changing the payload's `lifetimeStats` cannot change the result. -/
theorem fullImport_spec :
    (∀ (now : ℚ) (prior : AppData), fullImport now prior none = (false, prior)) ∧
    (∀ (now : ℚ) (prior : AppData),
      fullImport now prior (some ImportPayload.jnull) = (false, prior) ∧
      fullImport now prior (some ImportPayload.jprim) = (false, prior)) ∧
    (∀ (now : ℚ) (prior : AppData) (fields : PayloadFields),
      fullImport now prior (some (ImportPayload.jobject fields)) =
        (true,
          { history := fields.history.getD [],
            bookmarks := fields.bookmarks.getD [],
            masteryCards := fields.masteryCards.getD [],
            srsStates := fields.srsStates.getD [],
            questionLibrary := fields.questionLibrary.getD [],
            studyPlan := fields.studyPlan,
            lifetimeStats := updateAnalytics now (fields.history.getD []) })) ∧
    (∀ (now : ℚ) (prior : AppData) (fields : PayloadFields) (ls : Option LifetimeStats),
      (fullImport now prior (some (ImportPayload.jobject fields))).2.lifetimeStats =
        (fullImport now prior (some (ImportPayload.jobject
          { fields with lifetimeStats := ls }))).2.lifetimeStats) :=
  ⟨fun _ _ => rfl, fun _ _ => ⟨rfl, rfl⟩, fun _ _ _ => rfl, fun _ _ _ _ => rfl⟩
